import Mathlib

/-!
Verification of the detection post-processing core of `image_recognizer_AI`
(bounding-box geometry, Non-Maximum Suppression engine, image-processing
helpers and their Python bindings).

Floating-point (`float`) values of the C++ source are idealized as real
numbers; C++ `int` values are idealized as `ℤ` (or `ℕ` where the spec
constrains them to be nonnegative).  The geometry and suppression
implementations are not shipped in the repository (only their headers are),
so those definitions are modelled from the specification text, as indicated
by their doc comments.  `image_processor.cpp` and `python_bindings.cpp` are
shipped and are translated directly.
-/

noncomputable section

namespace Yolov10

/-- Axis-aligned detection box: corners, confidence score, class id and a
display label (the label plays no role in any computation).  Mirrors
`BoundingBox` from `bounding_box.h`. -/
structure BoundingBox where
  x1 : ℝ
  y1 : ℝ
  x2 : ℝ
  y2 : ℝ
  confidence : ℝ := 0
  class_id : ℤ := 0
  label : String := ""

/-- Modelled from the spec: `BoundingBox::is_valid` is declared in
`bounding_box.h` but its implementation is missing; the spec states a box is
valid iff `x2 > x1 ∧ y2 > y1` and all coordinates are finite (finiteness is
automatic in the real-number idealization). -/
def BoundingBox.is_valid (b : BoundingBox) : Prop :=
  b.x1 < b.x2 ∧ b.y1 < b.y2

instance (b : BoundingBox) : Decidable b.is_valid :=
  inferInstanceAs (Decidable (_ ∧ _))

/-- Modelled from the spec: `BoundingBox::area` is declared in
`bounding_box.h` but its implementation is missing; the spec states the area
is derived from the corners and is 0 on an invalid box. -/
def BoundingBox.area (b : BoundingBox) : ℝ :=
  if b.is_valid then (b.x2 - b.x1) * (b.y2 - b.y1) else 0

/-- Modelled from the spec: `BoundingBoxOps::intersection_area` is declared
in `bounding_box.h` but its implementation is missing; the spec gives the
formula `max(0, min(a.x2,b.x2)-max(a.x1,b.x1)) * max(0, min(a.y2,b.y2)-max(a.y1,b.y1))`. -/
def intersection_area (a b : BoundingBox) : ℝ :=
  max 0 (min a.x2 b.x2 - max a.x1 b.x1) * max 0 (min a.y2 b.y2 - max a.y1 b.y1)

/-- Modelled from the spec: `BoundingBoxOps::union_area` is declared in
`bounding_box.h` but its implementation is missing; the spec gives
`union_area(a,b) = area(a) + area(b) - intersection_area(a,b)`. -/
def union_area (a b : BoundingBox) : ℝ :=
  a.area + b.area - intersection_area a b

/-- Modelled from the spec: `BoundingBoxOps::calculate_iou` is declared in
`bounding_box.h` but its implementation is missing; the spec gives
`iou = intersection_area / union_area`, defined as 0 when the union area
is 0. -/
def calculate_iou (a b : BoundingBox) : ℝ :=
  if union_area a b = 0 then 0 else intersection_area a b / union_area a b

/-- Confidence-descending comparison used by the stable confidence sort. -/
def confGE (a b : BoundingBox) : Prop := b.confidence ≤ a.confidence

instance : DecidableRel confGE := fun a b =>
  inferInstanceAs (Decidable (b.confidence ≤ a.confidence))

instance : IsTotal BoundingBox confGE := ⟨fun a b => le_total b.confidence a.confidence⟩

instance : IsTrans BoundingBox confGE := ⟨fun _ _ _ h1 h2 => le_trans h2 h1⟩

/-- Modelled from the spec: `BoundingBoxOps::sort_by_confidence` is declared
in `bounding_box.h` but its implementation is missing; the spec requires a
stable sort, descending by confidence. -/
def sort_by_confidence (l : List BoundingBox) : List BoundingBox :=
  l.insertionSort confGE

/-- Modelled from the spec: the greedy loop of Standard NMS — take the
current highest-confidence box, remove every remaining box whose IoU with it
is at or above the threshold, continue until the group is empty. -/
def standardGreedy (t : ℝ) : List BoundingBox → List BoundingBox
  | [] => []
  | h :: rest => h :: standardGreedy t (rest.filter fun b => calculate_iou h b < t)
termination_by l => l.length
decreasing_by
  simp only [List.length_cons]
  exact Nat.lt_succ_of_le (List.length_filter_le _ _)

/-- Modelled from the spec: `NMSProcessor::apply_standard_nms` is declared in
`nms_processor.h` but its implementation is missing; the spec describes it as
sorting the group descending by confidence and running the greedy loop. -/
def apply_standard_nms (boxes : List BoundingBox) (iou_threshold : ℝ) : List BoundingBox :=
  standardGreedy iou_threshold (sort_by_confidence boxes)

/-- Modelled from the spec: the class ids present in a box list, in order of
first appearance (the spec says group order is the order of first
appearance). -/
def classesOf (l : List BoundingBox) : List ℤ :=
  l.foldl (fun acc b => if b.class_id ∈ acc then acc else acc ++ [b.class_id]) []

/-- Modelled from the spec: `NMSProcessor::group_by_class` is declared in
`nms_processor.h` but its implementation is missing; partition the boxes by
`class_id`, groups ordered by first appearance, each group keeping input
order. -/
def group_by_class (l : List BoundingBox) : List (List BoundingBox) :=
  (classesOf l).map fun c => l.filter fun b => b.class_id = c

/-- Modelled from the spec: `NMSProcessor::apply_class_agnostic_nms` is
declared in `nms_processor.h` but its implementation is missing; all boxes
are treated as one group and Standard suppression runs ignoring class. -/
def apply_class_agnostic_nms (boxes : List BoundingBox) (iou_threshold : ℝ) :
    List BoundingBox :=
  apply_standard_nms boxes iou_threshold

/-- Modelled from the spec: `NMSProcessor::apply_per_class_nms` is declared
in `nms_processor.h` but its implementation is missing; Standard suppression
runs within each class group and the group results are concatenated in group
order. -/
def apply_per_class_nms (boxes : List BoundingBox) (iou_threshold : ℝ) :
    List BoundingBox :=
  ((group_by_class boxes).map fun g => apply_standard_nms g iou_threshold).flatten

/-- NMS algorithm types, mirroring `NMSProcessor::NMSType` in
`nms_processor.h`. -/
inductive NMSType where
  | STANDARD
  | SOFT
  | WEIGHTED
  | ADAPTIVE
deriving DecidableEq

/-- NMS configuration, mirroring `NMSProcessor::NMSConfig` in
`nms_processor.h`, including its default member initializers
(`max_detections` is an `int` the spec constrains to be `≥ 0`, with `0`
meaning unbounded, so it is modelled as `ℕ`). -/
structure NMSConfig where
  iou_threshold : ℝ := 0.45
  confidence_threshold : ℝ := 0.5
  nms_type : NMSType := NMSType.STANDARD
  class_agnostic : Bool := false
  soft_nms_sigma : ℝ := 0.5
  max_detections : ℕ := 300
  adaptive_threshold : ℝ := 0.5

/-- A default-constructed configuration, as `NMSProcessor()` would hold. -/
def defaultNMSConfig : NMSConfig := {}

/-- Modelled from the spec: the configuration validity predicate — every
threshold lies in `[0,1]` and the soft-NMS sigma is positive
(`max_detections ≥ 0` holds by the `ℕ` modelling). -/
def validConfig (c : NMSConfig) : Prop :=
  0 ≤ c.iou_threshold ∧ c.iou_threshold ≤ 1 ∧
  0 ≤ c.confidence_threshold ∧ c.confidence_threshold ≤ 1 ∧
  0 < c.soft_nms_sigma ∧
  0 ≤ c.adaptive_threshold ∧ c.adaptive_threshold ≤ 1

instance (c : NMSConfig) : Decidable (validConfig c) :=
  inferInstanceAs (Decidable (_ ∧ _))

/-- Modelled from the spec: `NMSProcessor::set_config` is declared in
`nms_processor.h` but its implementation is missing; the spec requires the
new configuration to be validated as a unit, applied only when valid, with a
validation failure reported to the caller and the previous configuration
kept entirely otherwise.  The result is the engine's configuration after the
call paired with the success flag reported to the caller. -/
def set_config (current newConfig : NMSConfig) : NMSConfig × Bool :=
  if validConfig newConfig then (newConfig, true) else (current, false)

/-- Modelled from the spec: `NMSProcessor::calculate_soft_nms_decay` is
declared in `nms_processor.h` but its implementation is missing; the spec
gives the Gaussian decay `exp(-(iou²)/sigma)`. -/
def calculate_soft_nms_decay (iouValue sigma : ℝ) : ℝ :=
  Real.exp (-(iouValue ^ 2) / sigma)

/-- Modelled from the spec: one Soft-NMS round — decay the confidence of the
remaining boxes overlapping the pick at or above the IoU threshold, then
drop every box whose score falls below the confidence threshold. -/
def softStep (cth t sigma : ℝ) (pick : BoundingBox) (rest : List BoundingBox) :
    List BoundingBox :=
  (rest.map fun b =>
      if t ≤ calculate_iou pick b then
        { b with confidence :=
            b.confidence * calculate_soft_nms_decay (calculate_iou pick b) sigma }
      else b).filter fun b => cth ≤ b.confidence

/-- Modelled from the spec: the greedy Soft-NMS loop — sort by (current)
confidence, keep the top box, decay and drop among the rest, re-sort and
continue until the group is empty. -/
def softLoop (cth t sigma : ℝ) (l : List BoundingBox) : List BoundingBox :=
  match hs : sort_by_confidence l with
  | [] => []
  | pick :: rest => pick :: softLoop cth t sigma (softStep cth t sigma pick rest)
termination_by l.length
decreasing_by
  have hlen : (sort_by_confidence l).length = l.length := by
    simp [sort_by_confidence]
  rw [hs, List.length_cons] at hlen
  have hstep : (softStep cth t sigma pick rest).length ≤ rest.length :=
    le_trans (List.length_filter_le _ _) (le_of_eq (List.length_map _ _))
  omega

/-- Modelled from the spec: `NMSProcessor::apply_soft_nms` is declared in
`nms_processor.h` but its implementation is missing; the confidence
threshold used to drop decayed boxes comes from the engine configuration and
is therefore an explicit first parameter here.  Output boxes carry their
decayed confidence. -/
def apply_soft_nms (confidence_threshold : ℝ) (boxes : List BoundingBox)
    (iou_threshold sigma : ℝ) : List BoundingBox :=
  softLoop confidence_threshold iou_threshold sigma boxes

/-- Modelled from the spec: `NMSProcessor::merge_overlapping_boxes` is
declared in `nms_processor.h` but its implementation is missing; the spec's
Weighted strategy replaces the kept box's coordinates with the
confidence-weighted average (`Σ wᵢ·coordᵢ / Σ wᵢ`, `wᵢ` = confidence) of the
group, keeping the pick's confidence and class. -/
def merge_overlapping_boxes (group : List BoundingBox) (pick : BoundingBox) :
    BoundingBox :=
  { pick with
    x1 := (group.map fun b => b.confidence * b.x1).sum / (group.map fun b => b.confidence).sum
    y1 := (group.map fun b => b.confidence * b.y1).sum / (group.map fun b => b.confidence).sum
    x2 := (group.map fun b => b.confidence * b.x2).sum / (group.map fun b => b.confidence).sum
    y2 := (group.map fun b => b.confidence * b.y2).sum / (group.map fun b => b.confidence).sum }

/-- Modelled from the spec: the greedy loop of Weighted NMS — like Standard,
but the kept box's coordinates become the confidence-weighted average of its
own and all overlapping boxes' coordinates before the overlapping set is
discarded. -/
def weightedGreedy (t : ℝ) : List BoundingBox → List BoundingBox
  | [] => []
  | pick :: rest =>
    merge_overlapping_boxes (pick :: rest.filter fun b => t ≤ calculate_iou pick b) pick ::
      weightedGreedy t (rest.filter fun b => calculate_iou pick b < t)
termination_by l => l.length
decreasing_by
  simp only [List.length_cons]
  exact Nat.lt_succ_of_le (List.length_filter_le _ _)

/-- Modelled from the spec: `NMSProcessor::apply_weighted_nms` is declared in
`nms_processor.h` but its implementation is missing. -/
def apply_weighted_nms (boxes : List BoundingBox) (iou_threshold : ℝ) : List BoundingBox :=
  weightedGreedy iou_threshold (sort_by_confidence boxes)

/-- Modelled from the spec: the greedy loop of Adaptive NMS — like Standard,
but the effective threshold for each pick is
`base + (1 - base) * density` where `density` is the fraction of remaining
boxes within `base` IoU of the pick. -/
def adaptiveGreedy (base : ℝ) : List BoundingBox → List BoundingBox
  | [] => []
  | pick :: rest =>
    pick :: adaptiveGreedy base (rest.filter fun b =>
      calculate_iou pick b < base + (1 - base) *
        (((rest.filter fun c => base ≤ calculate_iou pick c).length : ℝ) / (rest.length : ℝ)))
termination_by l => l.length
decreasing_by
  simp only [List.length_cons]
  exact Nat.lt_succ_of_le (List.length_filter_le _ _)

/-- Modelled from the spec: `NMSProcessor::apply_adaptive_nms` is declared in
`nms_processor.h` but its implementation is missing. -/
def apply_adaptive_nms (boxes : List BoundingBox) (base_threshold : ℝ) : List BoundingBox :=
  adaptiveGreedy base_threshold (sort_by_confidence boxes)

/-- Modelled from the spec: step 1 of the top-level `suppress` contract —
drop every box failing `is_valid()` or with confidence below the configured
confidence threshold. -/
def filter_input (cfg : NMSConfig) (boxes : List BoundingBox) : List BoundingBox :=
  boxes.filter fun b => b.is_valid ∧ cfg.confidence_threshold ≤ b.confidence

/-- Modelled from the spec: step 2 — a single group when class-agnostic,
otherwise the per-class groups in first-appearance order. -/
def nmsGroups (cfg : NMSConfig) (boxes : List BoundingBox) : List (List BoundingBox) :=
  if cfg.class_agnostic then [filter_input cfg boxes]
  else group_by_class (filter_input cfg boxes)

/-- Modelled from the spec: step 3 — dispatch the configured strategy on one
group (the `NMSConfig` of `nms_processor.h` carries no per-class threshold
map, so the group threshold is always the configured one). -/
def run_strategy (cfg : NMSConfig) (g : List BoundingBox) : List BoundingBox :=
  match cfg.nms_type with
  | NMSType.STANDARD => apply_standard_nms g cfg.iou_threshold
  | NMSType.SOFT =>
    apply_soft_nms cfg.confidence_threshold g cfg.iou_threshold cfg.soft_nms_sigma
  | NMSType.WEIGHTED => apply_weighted_nms g cfg.iou_threshold
  | NMSType.ADAPTIVE => apply_adaptive_nms g cfg.adaptive_threshold

/-- Modelled from the spec: the concatenation (in group order) of the
per-group strategy results — steps 1–3 of `suppress` plus the concatenation
half of step 4. -/
def nmsCandidates (cfg : NMSConfig) (boxes : List BoundingBox) : List BoundingBox :=
  ((nmsGroups cfg boxes).map (run_strategy cfg)).flatten

/-- Modelled from the spec: `NMSProcessor::apply_nms` is declared in
`nms_processor.h` but its implementation is missing; the spec's `suppress`
contract filters, groups, runs the configured strategy per group,
concatenates, sorts by confidence and truncates to `max_detections` when
nonzero (the statistics update of step 6 is not modelled). -/
def apply_nms (cfg : NMSConfig) (boxes : List BoundingBox) : List BoundingBox :=
  if cfg.max_detections = 0 then sort_by_confidence (nmsCandidates cfg boxes)
  else (sort_by_confidence (nmsCandidates cfg boxes)).take cfg.max_detections

/-- The fallback `cv_Mat` of `image_processor.h` (used whenever OpenCV is
absent, which is the only configuration in which the shipped sources
compile): a rows×cols float matrix stored row-major. -/
structure Mat where
  rows : ℕ
  cols : ℕ
  data : List ℝ

/-- Raw element access `cv_Mat::at(r,c) = data[r*cols+c]`
(`image_processor.h`, fallback section). -/
def Mat.entry (m : Mat) (r c : ℕ) : ℝ :=
  m.data.getD (r * m.cols + c) 0

/-- The Python binding `Mat.at` of `python_bindings.cpp` (lines 59–64):
bounds-checked access that returns `0.0f` outside `[0,rows)×[0,cols)`
instead of reading out of bounds. -/
def mat_at (m : Mat) (i j : ℤ) : ℝ :=
  if 0 ≤ i ∧ i < (m.rows : ℤ) ∧ 0 ≤ j ∧ j < (m.cols : ℤ) then
    m.entry i.toNat j.toNat
  else 0

/-- The Python binding `Mat.set_at` of `python_bindings.cpp` (lines 65–69):
bounds-checked update that silently leaves the matrix unchanged outside
`[0,rows)×[0,cols)`. -/
def mat_set_at (m : Mat) (i j : ℤ) (v : ℝ) : Mat :=
  if 0 ≤ i ∧ i < (m.rows : ℤ) ∧ 0 ≤ j ∧ j < (m.cols : ℤ) then
    { m with data := m.data.set (i.toNat * m.cols + j.toNat) v }
  else m

/-- The fallback `cv_Size` of `image_processor.h` (width, height). -/
structure Size where
  width : ℕ
  height : ℕ

/-- Translation of `ImageProcessor::preprocess_image` from `image_processor.cpp` (lines
19–45): builds a `target.height × target.width` matrix filled row-major with
the pattern `(i + j) % 255`, each entry divided by `255.0f` when `normalize`
is set.  The file named by `image_path` is never read — the path is only
echoed to stdout, which has no modelled effect. -/
def preprocess_image (image_path : String) (target_size : Size) (normalize : Bool) : Mat :=
  let base : List ℝ :=
    (List.range target_size.height).flatMap fun i =>
      (List.range target_size.width).map fun j => (((i + j) % 255 : ℕ) : ℝ)
  { rows := target_size.height
    cols := target_size.width
    data := if normalize then base.map fun v => v / 255 else base }

/-- First box of the Soft-vs-Standard counterexample configuration. -/
def softBoxA : BoundingBox := ⟨0, 0, 10, 10, 0.95, 0, ""⟩

/-- Second box: overlaps `softBoxA` with IoU 1/3. -/
def softBoxB : BoundingBox := ⟨5, 0, 15, 10, 0.9, 0, ""⟩

/-- Third box: overlaps `softBoxB` with IoU 1/3 and `softBoxA` with IoU 0. -/
def softBoxC : BoundingBox := ⟨10, 0, 20, 10, 0.52, 0, ""⟩

/-- Fourth box: overlaps `softBoxB` with IoU 1/3 and both `softBoxA` and
`softBoxC` with IoU 1/7. -/
def softBoxD : BoundingBox := ⟨5, 5, 15, 15, 0.52, 0, ""⟩

/-- The box `softBoxB` after one Soft-NMS decay round against `softBoxA`
(IoU 1/3, sigma 1/2). -/
def softBoxB' : BoundingBox :=
  { softBoxB with confidence := softBoxB.confidence * Real.exp (-(2/9)) }

/-- Higher-confidence box of a heavily overlapping pair (IoU 1). -/
def softBoxE : BoundingBox := ⟨0, 0, 4, 4, 0.8, 0, ""⟩

/-- Lower-confidence box with the same coordinates as `softBoxE`: its
decayed score `0.7 * exp(-2)` falls below the confidence threshold 1/2. -/
def softBoxF : BoundingBox := ⟨0, 0, 4, 4, 0.7, 0, ""⟩

theorem area_nonneg (a : BoundingBox) : 0 ≤ a.area := by
  unfold BoundingBox.area
  split
  · rename_i h
    have hx : 0 ≤ a.x2 - a.x1 := by linarith [h.1]
    have hy : 0 ≤ a.y2 - a.y1 := by linarith [h.2]
    exact mul_nonneg hx hy
  · exact le_refl 0

theorem intersection_area_nonneg (a b : BoundingBox) : 0 ≤ intersection_area a b :=
  mul_nonneg (le_max_left _ _) (le_max_left _ _)

theorem intersection_area_comm (a b : BoundingBox) :
    intersection_area a b = intersection_area b a := by
  unfold intersection_area
  rw [min_comm a.x2, max_comm a.x1, min_comm a.y2, max_comm a.y1]

theorem intersection_area_le_area_left (a b : BoundingBox) :
    intersection_area a b ≤ a.area := by
  unfold intersection_area BoundingBox.area
  split
  · rename_i h
    have hx : max 0 (min a.x2 b.x2 - max a.x1 b.x1) ≤ a.x2 - a.x1 := by
      apply max_le
      · linarith [h.1]
      · have h1 : min a.x2 b.x2 ≤ a.x2 := min_le_left _ _
        have h2 : a.x1 ≤ max a.x1 b.x1 := le_max_left _ _
        linarith
    have hy : max 0 (min a.y2 b.y2 - max a.y1 b.y1) ≤ a.y2 - a.y1 := by
      apply max_le
      · linarith [h.2]
      · have h1 : min a.y2 b.y2 ≤ a.y2 := min_le_left _ _
        have h2 : a.y1 ≤ max a.y1 b.y1 := le_max_left _ _
        linarith
    exact mul_le_mul hx hy (le_max_left _ _) (by linarith [h.1])
  · rename_i h
    rw [BoundingBox.is_valid, not_and_or, not_lt, not_lt] at h
    rcases h with h | h
    · have hx : min a.x2 b.x2 - max a.x1 b.x1 ≤ 0 := by
        have h1 : min a.x2 b.x2 ≤ a.x2 := min_le_left _ _
        have h2 : a.x1 ≤ max a.x1 b.x1 := le_max_left _ _
        linarith
      have : max 0 (min a.x2 b.x2 - max a.x1 b.x1) = 0 := max_eq_left hx
      rw [this, zero_mul]
    · have hy : min a.y2 b.y2 - max a.y1 b.y1 ≤ 0 := by
        have h1 : min a.y2 b.y2 ≤ a.y2 := min_le_left _ _
        have h2 : a.y1 ≤ max a.y1 b.y1 := le_max_left _ _
        linarith
      have : max 0 (min a.y2 b.y2 - max a.y1 b.y1) = 0 := max_eq_left hy
      rw [this, mul_zero]

theorem intersection_area_le_area_right (a b : BoundingBox) :
    intersection_area a b ≤ b.area := by
  rw [intersection_area_comm]
  exact intersection_area_le_area_left b a

theorem union_area_nonneg (a b : BoundingBox) : 0 ≤ union_area a b := by
  have h1 := intersection_area_le_area_right a b
  have h2 := area_nonneg a
  unfold union_area
  linarith

theorem intersection_le_union (a b : BoundingBox) :
    intersection_area a b ≤ union_area a b := by
  have h1 := intersection_area_le_area_left a b
  have h2 := intersection_area_le_area_right a b
  unfold union_area
  linarith

theorem union_area_comm (a b : BoundingBox) : union_area a b = union_area b a := by
  unfold union_area
  rw [intersection_area_comm]
  ring

theorem calculate_iou_comm (a b : BoundingBox) : calculate_iou a b = calculate_iou b a := by
  unfold calculate_iou
  rw [union_area_comm, intersection_area_comm]

theorem calculate_iou_nonneg (a b : BoundingBox) : 0 ≤ calculate_iou a b := by
  unfold calculate_iou
  split
  · exact le_refl 0
  · rename_i h
    have hu : 0 < union_area a b := lt_of_le_of_ne (union_area_nonneg a b) (Ne.symm h)
    exact div_nonneg (intersection_area_nonneg a b) hu.le

theorem calculate_iou_le_one (a b : BoundingBox) : calculate_iou a b ≤ 1 := by
  unfold calculate_iou
  split
  · exact zero_le_one
  · rename_i h
    have hu : 0 < union_area a b := lt_of_le_of_ne (union_area_nonneg a b) (Ne.symm h)
    exact (div_le_one hu).mpr (intersection_le_union a b)

theorem calculate_iou_self (a : BoundingBox) (h : a.is_valid) : calculate_iou a a = 1 := by
  have harea : a.area = (a.x2 - a.x1) * (a.y2 - a.y1) := if_pos h
  have hinter : intersection_area a a = a.area := by
    unfold intersection_area
    rw [min_self, max_self, min_self, max_self, harea]
    rw [max_eq_right (by linarith [h.1]), max_eq_right (by linarith [h.2])]
  have hpos : 0 < a.area := by
    rw [harea]
    exact mul_pos (by linarith [h.1]) (by linarith [h.2])
  have hunion : union_area a a = a.area := by
    unfold union_area
    rw [hinter]
    ring
  unfold calculate_iou
  rw [hunion, hinter, if_neg (by positivity), div_self (by positivity)]

theorem standardGreedy_sublist (t : ℝ) (l : List BoundingBox) :
    List.Sublist (standardGreedy t l) l := by
  induction l using standardGreedy.induct t with
  | case1 => simp [standardGreedy]
  | case2 h rest ih =>
    simp only [standardGreedy]
    exact (ih.trans (List.filter_sublist rest)).cons₂ h

theorem standardGreedy_pairwise (t : ℝ) (l : List BoundingBox) :
    (standardGreedy t l).Pairwise (fun a b => calculate_iou a b < t) := by
  induction l using standardGreedy.induct t with
  | case1 => simp [standardGreedy]
  | case2 h rest ih =>
    simp only [standardGreedy, List.pairwise_cons]
    refine ⟨fun b hb => ?_, ih⟩
    have hb' : b ∈ rest.filter fun b => calculate_iou h b < t :=
      (standardGreedy_sublist t _).subset hb
    have := List.of_mem_filter hb'
    simpa using this

theorem standardGreedy_of_pairwise (t : ℝ) (l : List BoundingBox)
    (hp : l.Pairwise (fun a b => calculate_iou a b < t)) : standardGreedy t l = l := by
  induction l using standardGreedy.induct t with
  | case1 => simp [standardGreedy]
  | case2 h rest ih =>
    rw [List.pairwise_cons] at hp
    have hf : (rest.filter fun b => calculate_iou h b < t) = rest :=
      List.filter_eq_self.mpr fun b hb => by simpa using hp.1 b hb
    rw [hf] at ih
    simp only [standardGreedy, hf]
    exact congrArg (h :: ·) (ih hp.2)

theorem standardGreedy_sorted (t : ℝ) (l : List BoundingBox) (h : List.Sorted confGE l) :
    List.Sorted confGE (standardGreedy t l) :=
  List.Pairwise.sublist (standardGreedy_sublist t l) h

/-- Claim C5: for every input box list and every IoU threshold, applying
Standard (greedy) NMS a second time with the same threshold to its own
output returns that output unchanged: `apply_standard_nms` is idempotent. -/
theorem apply_standard_nms_idempotent (boxes : List BoundingBox) (t : ℝ) :
    apply_standard_nms (apply_standard_nms boxes t) t = apply_standard_nms boxes t := by
  unfold apply_standard_nms
  have hsorted : List.Sorted confGE (standardGreedy t (sort_by_confidence boxes)) :=
    standardGreedy_sorted t _ (List.sorted_insertionSort confGE boxes)
  rw [sort_by_confidence, hsorted.insertionSort_eq]
  exact standardGreedy_of_pairwise t _ (standardGreedy_pairwise t _)

theorem apply_standard_nms_singleton (x : BoundingBox) (t : ℝ) :
    apply_standard_nms [x] t = [x] := by
  simp [apply_standard_nms, sort_by_confidence, List.insertionSort, List.orderedInsert,
    standardGreedy]

theorem calculate_iou_coords_eq_one (a b : BoundingBox)
    (hx1 : a.x1 = b.x1) (hy1 : a.y1 = b.y1) (hx2 : a.x2 = b.x2) (hy2 : a.y2 = b.y2)
    (hval : a.is_valid) : calculate_iou a b = 1 := by
  have h1 : a.x1 < a.x2 := hval.1
  have h2 : a.y1 < a.y2 := hval.2
  have hvb : b.is_valid := by
    rw [BoundingBox.is_valid, ← hx1, ← hx2, ← hy1, ← hy2]
    exact hval
  have hA : 0 < (a.x2 - a.x1) * (a.y2 - a.y1) :=
    mul_pos (sub_pos.mpr h1) (sub_pos.mpr h2)
  simp only [calculate_iou, union_area, intersection_area, BoundingBox.area,
    if_pos hval, if_pos hvb]
  rw [← hx1, ← hx2, ← hy1, ← hy2, min_self, max_self, min_self, max_self,
    max_eq_right (le_of_lt (sub_pos.mpr h1)), max_eq_right (le_of_lt (sub_pos.mpr h2))]
  have hsum : (a.x2 - a.x1) * (a.y2 - a.y1) + (a.x2 - a.x1) * (a.y2 - a.y1) -
      (a.x2 - a.x1) * (a.y2 - a.y1) = (a.x2 - a.x1) * (a.y2 - a.y1) := by ring
  rw [hsum, if_neg hA.ne', div_self hA.ne']

/-- Claim C6: for two boxes with identical coordinates but different
`class_id`, per-class suppression (`class_agnostic = false`) keeps both,
while class-agnostic suppression (`class_agnostic = true`) keeps exactly one
of them. -/
theorem per_class_vs_class_agnostic (a b : BoundingBox) (t : ℝ)
    (hx1 : a.x1 = b.x1) (hy1 : a.y1 = b.y1) (hx2 : a.x2 = b.x2) (hy2 : a.y2 = b.y2)
    (hcls : a.class_id ≠ b.class_id) (hval : a.is_valid) (ht : t ≤ 1) :
    (apply_per_class_nms [a, b] t).length = 2 ∧
    (apply_class_agnostic_nms [a, b] t).length = 1 := by
  have hiou : calculate_iou a b = 1 := calculate_iou_coords_eq_one a b hx1 hy1 hx2 hy2 hval
  have hiou' : calculate_iou b a = 1 := by rw [calculate_iou_comm]; exact hiou
  constructor
  · have hclasses : classesOf [a, b] = [a.class_id, b.class_id] := by
      simp [classesOf, hcls.symm]
    have hga : [a, b].filter (fun x => x.class_id = a.class_id) = [a] := by
      simp [List.filter, hcls.symm]
    have hgb : [a, b].filter (fun x => x.class_id = b.class_id) = [b] := by
      simp [List.filter, hcls]
    rw [apply_per_class_nms, group_by_class, hclasses]
    simp only [List.map_cons, List.map_nil, hga, hgb]
    rw [apply_standard_nms_singleton, apply_standard_nms_singleton]
    simp
  · rw [apply_class_agnostic_nms, apply_standard_nms]
    by_cases hc : confGE a b
    · have hsort : sort_by_confidence [a, b] = [a, b] := by
        simp [sort_by_confidence, List.insertionSort, List.orderedInsert, hc]
      rw [hsort]
      simp only [standardGreedy, List.filter]
      rw [decide_eq_false (by rw [hiou]; exact not_lt.mpr ht)]
      simp [standardGreedy]
    · have hsort : sort_by_confidence [a, b] = [b, a] := by
        simp [sort_by_confidence, List.insertionSort, List.orderedInsert, hc]
      rw [hsort]
      simp only [standardGreedy, List.filter]
      rw [decide_eq_false (by rw [hiou']; exact not_lt.mpr ht)]
      simp [standardGreedy]

/-- Witness for C6 at concrete boxes: identical unit boxes of classes 1 and
2 with threshold 1/2. -/
theorem per_class_vs_class_agnostic_witness :
    (apply_per_class_nms [⟨0, 0, 2, 2, 0.9, 1, ""⟩, ⟨0, 0, 2, 2, 0.8, 2, ""⟩] (1/2)).length = 2 ∧
    (apply_class_agnostic_nms [⟨0, 0, 2, 2, 0.9, 1, ""⟩, ⟨0, 0, 2, 2, 0.8, 2, ""⟩] (1/2)).length = 1 :=
  per_class_vs_class_agnostic _ _ _ rfl rfl rfl rfl (by decide)
    ⟨by norm_num, by norm_num⟩ (by norm_num)

/-- Claim C8: a default-constructed `NMSConfig` has `iou_threshold = 0.45`,
`confidence_threshold = 0.5`, `nms_type = STANDARD`, `class_agnostic =
false`, `soft_nms_sigma = 0.5`, `max_detections = 300` and
`adaptive_threshold = 0.5`; in particular the out-of-the-box detection limit
is the bounded value 300, not the unbounded value 0. -/
theorem default_config_values :
    defaultNMSConfig.iou_threshold = 0.45 ∧
    defaultNMSConfig.confidence_threshold = 0.5 ∧
    defaultNMSConfig.nms_type = NMSType.STANDARD ∧
    defaultNMSConfig.class_agnostic = false ∧
    defaultNMSConfig.soft_nms_sigma = 0.5 ∧
    defaultNMSConfig.max_detections = 300 ∧
    defaultNMSConfig.adaptive_threshold = 0.5 ∧
    defaultNMSConfig.max_detections ≠ 0 :=
  ⟨rfl, rfl, rfl, rfl, rfl, rfl, rfl, by decide⟩

/-- Claim C4: `set_config` validates the whole configuration as a unit — an
out-of-range configuration is rejected with a failure reported to the caller
and the previously active configuration is left entirely unchanged, while a
valid configuration replaces it and reports success. -/
theorem set_config_atomic (current c : NMSConfig) :
    (¬ validConfig c → set_config current c = (current, false)) ∧
    (validConfig c → set_config current c = (c, true)) :=
  ⟨fun h => if_neg h, fun h => if_pos h⟩

/-- Witness for C4: a configuration whose `iou_threshold` is 2 is rejected
and the default configuration stays in effect. -/
theorem set_config_atomic_witness :
    set_config defaultNMSConfig { iou_threshold := 2 } = (defaultNMSConfig, false) :=
  (set_config_atomic defaultNMSConfig { iou_threshold := 2 }).1
    (fun h => by norm_num [validConfig] at h)

theorem softLoop_nil (cth t sigma : ℝ) (l : List BoundingBox)
    (hs : sort_by_confidence l = []) : softLoop cth t sigma l = [] := by
  rw [softLoop]
  split
  · rfl
  · rename_i pick rest heq
    rw [hs] at heq
    cases heq

theorem softLoop_cons (cth t sigma : ℝ) (l : List BoundingBox) (pick : BoundingBox)
    (rest : List BoundingBox) (hs : sort_by_confidence l = pick :: rest) :
    softLoop cth t sigma l =
      pick :: softLoop cth t sigma (softStep cth t sigma pick rest) := by
  rw [softLoop]
  split
  · rename_i heq
    rw [hs] at heq
    cases heq
  · rename_i p r heq
    rw [hs] at heq
    cases heq
    rfl

/-- Claim C1: for every input box list and every configuration with
`max_detections > 0`, the `apply_nms` output has length at most
`max_detections`, equals the `max_detections`-prefix of the final
confidence-descending sort of the strategy results, is itself sorted
descending, and every kept box has confidence at least that of every
candidate cut off by the truncation. -/
theorem apply_nms_bounded (cfg : NMSConfig) (boxes : List BoundingBox)
    (hmd : 0 < cfg.max_detections) :
    (apply_nms cfg boxes).length ≤ cfg.max_detections ∧
    List.Sorted confGE (apply_nms cfg boxes) ∧
    apply_nms cfg boxes =
      (sort_by_confidence (nmsCandidates cfg boxes)).take cfg.max_detections ∧
    (∀ x ∈ apply_nms cfg boxes,
      ∀ y ∈ (sort_by_confidence (nmsCandidates cfg boxes)).drop cfg.max_detections,
        y.confidence ≤ x.confidence) := by
  have hne : cfg.max_detections ≠ 0 := Nat.pos_iff_ne_zero.mp hmd
  rw [apply_nms, if_neg hne]
  simp only [sort_by_confidence]
  refine ⟨?_, ?_, trivial, ?_⟩
  · rw [List.length_take]
    exact min_le_left _ _
  · exact List.Pairwise.sublist (List.take_sublist _ _)
      (List.sorted_insertionSort confGE _)
  · intro x hx y hy
    exact (List.sorted_insertionSort confGE _).rel_of_mem_take_of_mem_drop hx hy

/-- Witness for C1: the default configuration (`max_detections = 300`) on
the empty input. -/
theorem apply_nms_bounded_witness :
    (apply_nms defaultNMSConfig []).length ≤ defaultNMSConfig.max_detections :=
  (apply_nms_bounded defaultNMSConfig [] (by decide)).1

/-- Counterexample to claim C2 as stated: reflexivity `iou(a,a) = 1` fails
on a degenerate box — the IoU of the zero-area box with itself is 0,
not 1. -/
theorem calculate_iou_self_degenerate :
    calculate_iou ⟨0, 0, 0, 0, 0.5, 0, ""⟩ ⟨0, 0, 0, 0, 0.5, 0, ""⟩ = 0 ∧ (0 : ℝ) ≠ 1 := by
  constructor
  · norm_num [calculate_iou, union_area, intersection_area, BoundingBox.area,
      BoundingBox.is_valid]
  · norm_num

/-- Claim C2 (amended): `iou(a,a) = 1` for every valid (positive-area) box;
for all boxes `iou` is symmetric and lies in `[0,1]`, and is 0 whenever the
union area is 0. -/
theorem calculate_iou_properties (a b : BoundingBox) :
    (a.is_valid → calculate_iou a a = 1) ∧
    calculate_iou a b = calculate_iou b a ∧
    0 ≤ calculate_iou a b ∧ calculate_iou a b ≤ 1 ∧
    (union_area a b = 0 → calculate_iou a b = 0) :=
  ⟨calculate_iou_self a, calculate_iou_comm a b, calculate_iou_nonneg a b,
    calculate_iou_le_one a b, fun h => if_pos h⟩

/-- Witness for C2 (amended): the unit box is its own perfect match, and two
degenerate boxes have IoU 0. -/
theorem calculate_iou_properties_witness :
    calculate_iou ⟨0, 0, 1, 1, 0.9, 0, ""⟩ ⟨0, 0, 1, 1, 0.9, 0, ""⟩ = 1 ∧
    calculate_iou ⟨0, 0, 0, 0, 0.5, 0, ""⟩ ⟨3, 3, 3, 3, 0.5, 0, ""⟩ = 0 :=
  ⟨(calculate_iou_properties ⟨0, 0, 1, 1, 0.9, 0, ""⟩ ⟨0, 0, 1, 1, 0.9, 0, ""⟩).1
      ⟨by norm_num, by norm_num⟩,
    (calculate_iou_properties ⟨0, 0, 0, 0, 0.5, 0, ""⟩ ⟨3, 3, 3, 3, 0.5, 0, ""⟩).2.2.2.2
      (by norm_num [union_area, intersection_area, BoundingBox.area, BoundingBox.is_valid])⟩

/-- Claim C3: `intersection_area` equals the clamped product
`max(0, min(a.x2,b.x2)-max(a.x1,b.x1)) * max(0, min(a.y2,b.y2)-max(a.y1,b.y1))`
and is never negative, including when the boxes do not intersect. -/
theorem intersection_area_formula (a b : BoundingBox) :
    intersection_area a b =
      max 0 (min a.x2 b.x2 - max a.x1 b.x1) * max 0 (min a.y2 b.y2 - max a.y1 b.y1) ∧
    0 ≤ intersection_area a b :=
  ⟨rfl, intersection_area_nonneg a b⟩

/-- Claim C10: the Python `Mat` binding is total at every index — `at`
returns 0.0 at any index outside `[0,rows)×[0,cols)` instead of reading out
of bounds, and `set_at` at such an index silently leaves the matrix
unchanged. -/
theorem mat_binding_total (m : Mat) (i j : ℤ) (v : ℝ)
    (h : ¬ (0 ≤ i ∧ i < (m.rows : ℤ) ∧ 0 ≤ j ∧ j < (m.cols : ℤ))) :
    mat_at m i j = 0 ∧ mat_set_at m i j v = m :=
  ⟨if_neg h, if_neg h⟩

/-- Witness for C10: reading and writing index (-1, 0) of a concrete 2×2
matrix. -/
theorem mat_binding_total_witness :
    mat_at ⟨2, 2, [1, 2, 3, 4]⟩ (-1) 0 = 0 ∧
    mat_set_at ⟨2, 2, [1, 2, 3, 4]⟩ (-1) 0 9 = ⟨2, 2, [1, 2, 3, 4]⟩ :=
  mat_binding_total ⟨2, 2, [1, 2, 3, 4]⟩ (-1) 0 9
    (fun h => by have := h.1; norm_num at this)

theorem rowsLength (g : ℕ → ℕ → ℝ) (h w : ℕ) :
    ((List.range h).flatMap fun r => (List.range w).map (g r)).length = h * w := by
  induction h with
  | zero => simp
  | succ n ih =>
    rw [List.range_succ, List.flatMap_append, List.length_append, ih]
    simp [Nat.succ_mul]

theorem rowsGetD (g : ℕ → ℕ → ℝ) (h w i j : ℕ) (hi : i < h) (hj : j < w) :
    ((List.range h).flatMap fun r => (List.range w).map (g r)).getD (i * w + j) 0 =
      g i j := by
  induction h with
  | zero => omega
  | succ n ih =>
    rw [List.range_succ, List.flatMap_append]
    rcases Nat.lt_or_ge i n with hin | hin
    · rw [List.getD_append _ _ _ _ (by
        rw [rowsLength]
        calc i * w + j < i * w + w := by omega
          _ = (i + 1) * w := by ring
          _ ≤ n * w := Nat.mul_le_mul_right w hin)]
      exact ih hin
    · have hieq : i = n := by omega
      subst hieq
      rw [List.getD_append_right _ _ _ _ (by rw [rowsLength]; exact Nat.le_add_right _ _)]
      rw [rowsLength, Nat.add_sub_cancel_left]
      simp only [List.flatMap_cons, List.flatMap_nil, List.append_nil]
      rw [List.getD_eq_getElem _ _ (by simpa using hj)]
      simp

/-- Claim C9: for every `image_path`, target size and `normalize` flag,
`preprocess_image` returns a `height × width` matrix whose entry at `(i, j)`
is `(i + j) % 255`, divided by 255.0 when `normalize` is true; the result
does not depend on `image_path` (the named file is never read). -/
theorem preprocess_image_spec (p q : String) (target : Size) (normalize : Bool)
    (i j : ℕ) (hi : i < target.height) (hj : j < target.width) :
    preprocess_image p target normalize = preprocess_image q target normalize ∧
    (preprocess_image p target normalize).rows = target.height ∧
    (preprocess_image p target normalize).cols = target.width ∧
    (preprocess_image p target normalize).entry i j =
      (if normalize then (((i + j) % 255 : ℕ) : ℝ) / 255
       else (((i + j) % 255 : ℕ) : ℝ)) := by
  refine ⟨rfl, rfl, rfl, ?_⟩
  have hidx : i * target.width + j < target.height * target.width := by
    calc i * target.width + j < i * target.width + target.width := by omega
      _ = (i + 1) * target.width := by ring
      _ ≤ target.height * target.width := Nat.mul_le_mul_right _ hi
  cases normalize with
  | false =>
    simp only [preprocess_image, Mat.entry, if_neg Bool.false_ne_true]
    exact rowsGetD _ _ _ i j hi hj
  | true =>
    simp only [preprocess_image, Mat.entry, if_pos rfl, if_true]
    rw [List.getD_eq_getElem _ _ (by rw [List.length_map, rowsLength]; exact hidx)]
    rw [List.getElem_map]
    rw [← List.getD_eq_getElem _ 0 (by rw [rowsLength]; exact hidx)]
    rw [rowsGetD _ _ _ i j hi hj]

/-- Witness for C9: two different paths, a 2×3 target, `normalize = true`,
entry (1, 2). -/
theorem preprocess_image_spec_witness :
    preprocess_image "a.png" ⟨3, 2⟩ true = preprocess_image "b.png" ⟨3, 2⟩ true ∧
    (preprocess_image "a.png" ⟨3, 2⟩ true).rows = 2 ∧
    (preprocess_image "a.png" ⟨3, 2⟩ true).cols = 3 ∧
    (preprocess_image "a.png" ⟨3, 2⟩ true).entry 1 2 = (((3 : ℕ) : ℝ)) / 255 := by
  have h := preprocess_image_spec "a.png" "b.png" ⟨3, 2⟩ true 1 2 (by norm_num) (by norm_num)
  simpa using h

theorem iou_AB : calculate_iou softBoxA softBoxB = 1/3 := by
  norm_num [calculate_iou, union_area, intersection_area, BoundingBox.area,
    BoundingBox.is_valid, softBoxA, softBoxB, min_def, max_def]

theorem iou_AC : calculate_iou softBoxA softBoxC = 0 := by
  norm_num [calculate_iou, union_area, intersection_area, BoundingBox.area,
    BoundingBox.is_valid, softBoxA, softBoxC, min_def, max_def]

theorem iou_AD : calculate_iou softBoxA softBoxD = 1/7 := by
  norm_num [calculate_iou, union_area, intersection_area, BoundingBox.area,
    BoundingBox.is_valid, softBoxA, softBoxD, min_def, max_def]

theorem iou_BC : calculate_iou softBoxB softBoxC = 1/3 := by
  norm_num [calculate_iou, union_area, intersection_area, BoundingBox.area,
    BoundingBox.is_valid, softBoxB, softBoxC, min_def, max_def]

theorem iou_BD : calculate_iou softBoxB softBoxD = 1/3 := by
  norm_num [calculate_iou, union_area, intersection_area, BoundingBox.area,
    BoundingBox.is_valid, softBoxB, softBoxD, min_def, max_def]

theorem iou_CD : calculate_iou softBoxC softBoxD = 1/7 := by
  norm_num [calculate_iou, union_area, intersection_area, BoundingBox.area,
    BoundingBox.is_valid, softBoxC, softBoxD, min_def, max_def]

theorem iou_B'C : calculate_iou softBoxB' softBoxC = 1/3 := iou_BC

theorem iou_B'D : calculate_iou softBoxB' softBoxD = 1/3 := iou_BD

theorem exp_lb : (7 : ℝ)/9 ≤ Real.exp (-(2/9)) := by
  have h := Real.add_one_le_exp (-(2/9) : ℝ)
  linarith

theorem exp_ub : Real.exp (-(2/9)) ≤ 9/11 := by
  have h : (11 : ℝ)/9 ≤ Real.exp (2/9) := by
    have := Real.add_one_le_exp ((2 : ℝ)/9)
    linarith
  rw [Real.exp_neg]
  calc (Real.exp (2/9))⁻¹ ≤ ((11 : ℝ)/9)⁻¹ := inv_le_inv_of_le (by norm_num) h
    _ = 9/11 := by norm_num

theorem decay_val : calculate_soft_nms_decay (1/3) (1/2) = Real.exp (-(2/9)) := by
  rw [calculate_soft_nms_decay]
  norm_num

theorem conf_B'_lb : (7 : ℝ)/10 ≤ softBoxB'.confidence := by
  have h := exp_lb
  show (7 : ℝ)/10 ≤ softBoxB.confidence * Real.exp (-(2/9))
  have hconf : softBoxB.confidence = 0.9 := rfl
  rw [hconf]
  nlinarith

theorem sorted_ABCD : sort_by_confidence [softBoxA, softBoxB, softBoxC, softBoxD] =
    [softBoxA, softBoxB, softBoxC, softBoxD] := by
  apply List.Sorted.insertionSort_eq
  simp only [List.Sorted, List.pairwise_cons, List.Pairwise.nil, List.mem_cons,
    List.not_mem_nil, List.mem_singleton]
  norm_num [confGE, softBoxA, softBoxB, softBoxC, softBoxD]

theorem sorted_B'CD : sort_by_confidence [softBoxB', softBoxC, softBoxD] =
    [softBoxB', softBoxC, softBoxD] := by
  apply List.Sorted.insertionSort_eq
  apply List.Pairwise.cons
  · intro x hx
    have hx' : x = softBoxC ∨ x = softBoxD := by simpa using hx
    rcases hx' with rfl | rfl
    · show softBoxC.confidence ≤ softBoxB'.confidence
      calc softBoxC.confidence = 0.52 := rfl
        _ ≤ 7/10 := by norm_num
        _ ≤ softBoxB'.confidence := conf_B'_lb
    · show softBoxD.confidence ≤ softBoxB'.confidence
      calc softBoxD.confidence = 0.52 := rfl
        _ ≤ 7/10 := by norm_num
        _ ≤ softBoxB'.confidence := conf_B'_lb
  · apply List.Pairwise.cons
    · intro x hx
      have hx' : x = softBoxD := by simpa using hx
      subst hx'
      show softBoxD.confidence ≤ softBoxC.confidence
      norm_num [softBoxC, softBoxD]
    · exact List.pairwise_singleton _ _

theorem step_A : softStep (1/2) (1/5) (1/2) softBoxA [softBoxB, softBoxC, softBoxD] =
    [softBoxB', softBoxC, softBoxD] := by
  have hB : (1 : ℝ)/2 ≤
      ({ softBoxB with confidence := softBoxB.confidence * Real.exp (-(2/9)) } :
        BoundingBox).confidence :=
    le_trans (by norm_num) conf_B'_lb
  have hC : (1 : ℝ)/2 ≤ softBoxC.confidence := by
    have h : softBoxC.confidence = 0.52 := rfl
    rw [h]; norm_num
  have hD : (1 : ℝ)/2 ≤ softBoxD.confidence := by
    have h : softBoxD.confidence = 0.52 := rfl
    rw [h]; norm_num
  simp only [softStep, List.map_cons, List.map_nil, iou_AB, iou_AC, iou_AD, decay_val]
  rw [if_pos (by norm_num : (1 : ℝ)/5 ≤ 1/3), if_neg (by norm_num : ¬ ((1 : ℝ)/5 ≤ 0)),
    if_neg (by norm_num : ¬ ((1 : ℝ)/5 ≤ 1/7))]
  simp only [List.filter_cons, List.filter_nil, decide_eq_true_eq]
  rw [if_pos hB, if_pos hC, if_pos hD]
  rfl

theorem step_B' : softStep (1/2) (1/5) (1/2) softBoxB' [softBoxC, softBoxD] = [] := by
  have hC : ¬ ((1 : ℝ)/2 ≤
      ({ softBoxC with confidence := softBoxC.confidence * Real.exp (-(2/9)) } :
        BoundingBox).confidence) := by
    have hub := exp_ub
    show ¬ ((1 : ℝ)/2 ≤ softBoxC.confidence * Real.exp (-(2/9)))
    have h : softBoxC.confidence = 0.52 := rfl
    rw [h]
    intro hcon
    nlinarith [Real.exp_pos (-(2/9) : ℝ)]
  have hD : ¬ ((1 : ℝ)/2 ≤
      ({ softBoxD with confidence := softBoxD.confidence * Real.exp (-(2/9)) } :
        BoundingBox).confidence) := by
    have hub := exp_ub
    show ¬ ((1 : ℝ)/2 ≤ softBoxD.confidence * Real.exp (-(2/9)))
    have h : softBoxD.confidence = 0.52 := rfl
    rw [h]
    intro hcon
    nlinarith [Real.exp_pos (-(2/9) : ℝ)]
  simp only [softStep, List.map_cons, List.map_nil, iou_B'C, iou_B'D, decay_val]
  rw [if_pos (by norm_num : (1 : ℝ)/5 ≤ 1/3), if_pos (by norm_num : (1 : ℝ)/5 ≤ 1/3)]
  simp only [List.filter_cons, List.filter_nil, decide_eq_true_eq]
  rw [if_neg hC, if_neg hD]

theorem soft_eval :
    apply_soft_nms (1/2) [softBoxA, softBoxB, softBoxC, softBoxD] (1/5) (1/2) =
      [softBoxA, softBoxB'] := by
  rw [apply_soft_nms]
  rw [softLoop_cons _ _ _ _ _ _ sorted_ABCD, step_A]
  rw [softLoop_cons _ _ _ _ _ _ sorted_B'CD, step_B']
  rw [softLoop_nil _ _ _ _ (by simp [sort_by_confidence] : sort_by_confidence [] = [])]

theorem std_eval :
    apply_standard_nms [softBoxA, softBoxB, softBoxC, softBoxD] (1/5) =
      [softBoxA, softBoxC, softBoxD] := by
  have hf1 : [softBoxB, softBoxC, softBoxD].filter
      (fun b => calculate_iou softBoxA b < (1/5 : ℝ)) = [softBoxC, softBoxD] := by
    simp only [List.filter_cons, List.filter_nil, decide_eq_true_eq, iou_AB, iou_AC, iou_AD]
    norm_num
  have hf2 : [softBoxD].filter
      (fun b => calculate_iou softBoxC b < (1/5 : ℝ)) = [softBoxD] := by
    simp only [List.filter_cons, List.filter_nil, decide_eq_true_eq, iou_CD]
    norm_num
  rw [apply_standard_nms, sorted_ABCD]
  simp only [standardGreedy]
  rw [hf1]
  simp only [standardGreedy]
  rw [hf2]
  simp only [standardGreedy, List.filter_nil]

theorem iou_EF : calculate_iou softBoxE softBoxF = 1 :=
  calculate_iou_coords_eq_one softBoxE softBoxF rfl rfl rfl rfl
    ⟨by norm_num [softBoxE], by norm_num [softBoxE]⟩

theorem exp_neg_two_ub : Real.exp (-2) ≤ 1/3 := by
  have h : (3 : ℝ) ≤ Real.exp 2 := by
    have := Real.add_one_le_exp (2 : ℝ)
    linarith
  rw [Real.exp_neg]
  calc (Real.exp 2)⁻¹ ≤ ((3 : ℝ))⁻¹ := inv_le_inv_of_le (by norm_num) h
    _ = 1/3 := by norm_num

theorem decay_one_val : calculate_soft_nms_decay 1 (1/2) = Real.exp (-2) := by
  rw [calculate_soft_nms_decay]
  norm_num

theorem sorted_EF : sort_by_confidence [softBoxE, softBoxF] = [softBoxE, softBoxF] := by
  apply List.Sorted.insertionSort_eq
  refine List.Pairwise.cons ?_ (List.pairwise_singleton _ _)
  intro x hx
  have hx' : x = softBoxF := by simpa using hx
  subst hx'
  show softBoxF.confidence ≤ softBoxE.confidence
  have hE : softBoxE.confidence = 0.8 := rfl
  have hF : softBoxF.confidence = 0.7 := rfl
  rw [hE, hF]
  norm_num

theorem step_E : softStep (1/2) (1/2) (1/2) softBoxE [softBoxF] = [] := by
  have hdrop : ¬ ((1 : ℝ)/2 ≤
      ({ softBoxF with confidence := softBoxF.confidence * Real.exp (-2) } :
        BoundingBox).confidence) := by
    have hub := exp_neg_two_ub
    show ¬ ((1 : ℝ)/2 ≤ softBoxF.confidence * Real.exp (-2))
    have h : softBoxF.confidence = 0.7 := rfl
    rw [h]
    intro hcon
    nlinarith [Real.exp_pos (-2 : ℝ)]
  simp only [softStep, List.map_cons, List.map_nil, iou_EF, decay_one_val]
  rw [if_pos (by norm_num : (1 : ℝ)/2 ≤ 1)]
  simp only [List.filter_cons, List.filter_nil, decide_eq_true_eq]
  rw [if_neg hdrop]

/-- Counterexample to claim C7 as stated, refuting both of its clauses:
(i) on the four-box single-group input `[softBoxA, softBoxB, softBoxC,
softBoxD]` with IoU threshold 1/5, confidence threshold 1/2 and sigma 1/2,
Soft NMS returns 2 boxes while Standard NMS returns 3 — strictly fewer; and
(ii) on the two heavily overlapping boxes `softBoxE`, `softBoxF` (identical
coordinates, IoU 1, confidences 0.8 and 0.7) with IoU threshold 1/2,
confidence threshold 1/2 and sigma 1/2, Soft NMS does not retain both: the
lower box's decayed score `0.7 * exp(-2) < 1/2` drops it, leaving only the
higher box. -/
theorem soft_nms_fewer_than_standard :
    ((apply_soft_nms (1/2) [softBoxA, softBoxB, softBoxC, softBoxD] (1/5) (1/2)).length <
      (apply_standard_nms [softBoxA, softBoxB, softBoxC, softBoxD] (1/5)).length) ∧
    apply_soft_nms (1/2) [softBoxE, softBoxF] (1/2) (1/2) = [softBoxE] := by
  constructor
  · rw [soft_eval, std_eval]
    simp
  · rw [apply_soft_nms]
    rw [softLoop_cons _ _ _ _ _ _ sorted_EF, step_E]
    rw [softLoop_nil _ _ _ _ (by simp [sort_by_confidence] : sort_by_confidence [] = [])]

theorem sort_pair (a b : BoundingBox) :
    sort_by_confidence [a, b] = if confGE a b then [a, b] else [b, a] := by
  simp [sort_by_confidence, List.insertionSort, List.orderedInsert]

theorem standard_pair_length (p q : BoundingBox) (t : ℝ) :
    (standardGreedy t [p, q]).length = if calculate_iou p q < t then 2 else 1 := by
  by_cases hio : calculate_iou p q < t
  · rw [if_pos hio]
    simp only [standardGreedy, List.filter_cons, List.filter_nil, decide_eq_true_eq]
    rw [if_pos hio]
    simp [standardGreedy]
  · rw [if_neg hio]
    simp only [standardGreedy, List.filter_cons, List.filter_nil, decide_eq_true_eq]
    rw [if_neg hio]
    simp [standardGreedy]

theorem soft_pair_ge (l : List BoundingBox) (p q : BoundingBox) (cth t sigma : ℝ)
    (hq : cth ≤ q.confidence) (hs : sort_by_confidence l = [p, q]) :
    (if calculate_iou p q < t then 2 else 1) ≤ (softLoop cth t sigma l).length := by
  rw [softLoop_cons cth t sigma l p [q] hs]
  by_cases hio : calculate_iou p q < t
  · rw [if_pos hio]
    have hstep : softStep cth t sigma p [q] = [q] := by
      simp only [softStep, List.map_cons, List.map_nil]
      rw [if_neg (not_le.mpr hio)]
      simp only [List.filter_cons, List.filter_nil, decide_eq_true_eq]
      rw [if_pos hq]
    rw [hstep]
    have hsq : sort_by_confidence [q] = [q] := by
      simp [sort_by_confidence, List.insertionSort, List.orderedInsert]
    rw [softLoop_cons cth t sigma [q] q [] hsq]
    have hstep2 : softStep cth t sigma q [] = [] := by
      simp [softStep]
    rw [hstep2, softLoop_nil cth t sigma [] (by simp [sort_by_confidence])]
    simp
  · rw [if_neg hio]
    simp only [List.length_cons]
    omega

/-- Claim C7 (amended): for a two-box input whose confidences are both at
least the confidence threshold, Soft NMS never returns fewer boxes than
Standard NMS under the same IoU threshold; the Gaussian decay factor applied
to an overlapping pair is at most 1 (a retained overlapping box has its
score reduced, never increased); and when the two boxes overlap at or above
the IoU threshold and the lower box's decayed score stays at or above the
confidence threshold, Soft NMS retains both boxes, the lower one carrying
exactly its decayed (reduced) score.  The original universally quantified
never-fewer statement, and unconditional retention of both heavily
overlapping boxes, are refuted by `soft_nms_fewer_than_standard`. -/
theorem soft_nms_two_boxes_ge_standard (a b : BoundingBox) (cth t sigma : ℝ)
    (ha : cth ≤ a.confidence) (hb : cth ≤ b.confidence) (hsig : 0 < sigma) :
    (apply_standard_nms [a, b] t).length ≤ (apply_soft_nms cth [a, b] t sigma).length ∧
    calculate_soft_nms_decay (calculate_iou a b) sigma ≤ 1 ∧
    (confGE a b → t ≤ calculate_iou a b →
      cth ≤ b.confidence * calculate_soft_nms_decay (calculate_iou a b) sigma →
      apply_soft_nms cth [a, b] t sigma =
        [a, { b with confidence :=
          b.confidence * calculate_soft_nms_decay (calculate_iou a b) sigma }]) := by
  refine ⟨?_, ?_, ?_⟩
  · rw [apply_soft_nms, apply_standard_nms]
    by_cases hc : confGE a b
    · have hs : sort_by_confidence [a, b] = [a, b] := by rw [sort_pair, if_pos hc]
      rw [hs, standard_pair_length]
      exact soft_pair_ge [a, b] a b cth t sigma hb hs
    · have hs : sort_by_confidence [a, b] = [b, a] := by rw [sort_pair, if_neg hc]
      rw [hs, standard_pair_length]
      exact soft_pair_ge [a, b] b a cth t sigma ha hs
  · rw [calculate_soft_nms_decay, Real.exp_le_one_iff]
    exact div_nonpos_iff.mpr (Or.inr ⟨neg_nonpos.mpr (sq_nonneg _), hsig.le⟩)
  · intro hc hio hkeep
    have hkeep' : cth ≤
        ({ b with confidence :=
          b.confidence * calculate_soft_nms_decay (calculate_iou a b) sigma } :
            BoundingBox).confidence := hkeep
    rw [apply_soft_nms]
    have hs : sort_by_confidence [a, b] = [a, b] := by rw [sort_pair, if_pos hc]
    rw [softLoop_cons cth t sigma [a, b] a [b] hs]
    have hstep : softStep cth t sigma a [b] =
        [{ b with confidence :=
          b.confidence * calculate_soft_nms_decay (calculate_iou a b) sigma }] := by
      simp only [softStep, List.map_cons, List.map_nil]
      rw [if_pos hio]
      simp only [List.filter_cons, List.filter_nil, decide_eq_true_eq]
      rw [if_pos hkeep']
    rw [hstep]
    have hsb : sort_by_confidence
        [{ b with confidence :=
          b.confidence * calculate_soft_nms_decay (calculate_iou a b) sigma }] =
        [{ b with confidence :=
          b.confidence * calculate_soft_nms_decay (calculate_iou a b) sigma }] := by
      simp [sort_by_confidence, List.insertionSort, List.orderedInsert]
    rw [softLoop_cons cth t sigma _ _ [] hsb]
    have hstep2 : softStep cth t sigma
        { b with confidence :=
          b.confidence * calculate_soft_nms_decay (calculate_iou a b) sigma } [] = [] := by
      simp [softStep]
    rw [hstep2, softLoop_nil cth t sigma [] (by simp [sort_by_confidence])]

/-- Witness for C7 (amended): boxes with IoU 1/3, confidences 0.9 and 0.8,
thresholds 1/5 (IoU) and 1/2 (confidence), sigma 1/2 — both length
monotonicity and the retention conjunct fire, the lower box surviving with
score `0.8 * exp(-2/9)`. -/
theorem soft_nms_two_boxes_ge_standard_witness :
    ((apply_standard_nms [⟨0, 0, 10, 10, 0.9, 0, ""⟩, ⟨5, 0, 15, 10, 0.8, 0, ""⟩]
        (1/5)).length ≤
      (apply_soft_nms (1/2) [⟨0, 0, 10, 10, 0.9, 0, ""⟩, ⟨5, 0, 15, 10, 0.8, 0, ""⟩]
        (1/5) (1/2)).length) ∧
    apply_soft_nms (1/2) [⟨0, 0, 10, 10, 0.9, 0, ""⟩, ⟨5, 0, 15, 10, 0.8, 0, ""⟩]
        (1/5) (1/2) =
      [⟨0, 0, 10, 10, 0.9, 0, ""⟩,
        ⟨5, 0, 15, 10,
          0.8 * calculate_soft_nms_decay
            (calculate_iou ⟨0, 0, 10, 10, 0.9, 0, ""⟩ ⟨5, 0, 15, 10, 0.8, 0, ""⟩) (1/2),
          0, ""⟩] := by
  have hiou : calculate_iou (⟨0, 0, 10, 10, 0.9, 0, ""⟩ : BoundingBox)
      ⟨5, 0, 15, 10, 0.8, 0, ""⟩ = 1/3 := by
    norm_num [calculate_iou, union_area, intersection_area, BoundingBox.area,
      BoundingBox.is_valid, min_def, max_def]
  have h := soft_nms_two_boxes_ge_standard ⟨0, 0, 10, 10, 0.9, 0, ""⟩
    ⟨5, 0, 15, 10, 0.8, 0, ""⟩ (1/2) (1/5) (1/2)
    (by norm_num) (by norm_num) (by norm_num)
  refine ⟨h.1, h.2.2 (by show (0.8 : ℝ) ≤ 0.9; norm_num) ?_ ?_⟩
  · rw [hiou]
    norm_num
  · rw [hiou, decay_val]
    have hlb := exp_lb
    show (1 : ℝ)/2 ≤ 0.8 * Real.exp (-(2/9))
    nlinarith

end Yolov10
